import Mathlib

/-!
Shallow embedding of the Wake-Sleep-STT module (Python + Vosk):
`src/audio_capture.py`, `src/wake_sleep_stt.py` and `demo/py_demo.py`.
Python strings are modelled as lists of characters; Python floats
(times, RMS energies, thresholds) are modelled as rationals.  External
engine calls (Vosk recognizers, the JSON parser applied to their raw
output, the system clock) are modelled as per-chunk oracle inputs, since
they are outside the module; everything the module itself computes is
translated directly from the Python source.
-/

/-- Python strings modelled as lists of characters. -/
abbrev Str := List Char

/-- ASCII whitespace as recognised by Python str.strip and str.split. -/
def isSpaceChar (c : Char) : Bool :=
  c == ' ' || c == '\t' || c == '\n' || c == '\r' || c == '\x0b' || c == '\x0c'

/-- Python str.strip(): drop leading and trailing whitespace. -/
def pyStrip (s : Str) : Str :=
  (((s.dropWhile isSpaceChar).reverse).dropWhile isSpaceChar).reverse

/-- Python str.lower() (ASCII view). -/
def pyLower (s : Str) : Str := s.map Char.toLower

/-- Helper for Python str.split() with no separator argument: split on runs of
whitespace, dropping empty parts; `acc` holds the current token reversed. -/
def pySplitAux : Str → Str → List Str
  | [], acc => if acc = [] then [] else [acc.reverse]
  | c :: rest, acc =>
    if isSpaceChar c then
      if acc = [] then pySplitAux rest [] else acc.reverse :: pySplitAux rest []
    else
      pySplitAux rest (c :: acc)

/-- Python str.split() with no separator argument. -/
def pySplit (s : Str) : List Str := pySplitAux s []

/-- Python " ".join(segs). -/
def joinSpace : List Str → Str
  | [] => []
  | [s] => s
  | s :: rest => s ++ ' ' :: joinSpace rest

/-- Python `l[:len w] == w`: `w` is a leading substring of `l`. -/
def listPrefixOf : Str → Str → Bool
  | [], _ => true
  | _ :: _, [] => false
  | a :: as, b :: bs => a == b && listPrefixOf as bs

/-- Python `w in l` on strings: `w` occurs as a contiguous substring of `l`. -/
def listSubstr (w : Str) : Str → Bool
  | [] => listPrefixOf w []
  | l@(_ :: rest) => listPrefixOf w l || listSubstr w rest

/-- WakeSleepSTT._is_wake_in: some configured wake word occurs as a substring
of the lower-cased text (`any(w in text.lower() for w in self.wake_words)`). -/
def is_wake_in (wakeWords : List Str) (text : Str) : Bool :=
  wakeWords.any (fun w => listSubstr w (pyLower text))

/-- WakeSleepSTT._is_sleep_in: some configured sleep word occurs as a substring
of the lower-cased text. -/
def is_sleep_in (sleepWords : List Str) (text : Str) : Bool :=
  sleepWords.any (fun s => listSubstr s (pyLower text))

/-- demo/py_demo.py token_exact_in: some whitespace-delimited token of the
lower-cased text is exactly equal to one of the given tokens. -/
def token_exact_in (text : Str) (tokens : List Str) : Bool :=
  if text = [] then false
  else (pySplit (pyLower text)).any (fun p => tokens.contains p)

/-- WakeSleepSTT.__init__: the event kinds that get a callback list
(`self._callbacks = {'wake': [], 'sleep': [], 'transcript': [], 'error': []}`). -/
def callbackKeys : List Str := ["wake".data, "sleep".data, "transcript".data, "error".data]

/-- WakeSleepSTT.on(event, cb) raises ValueError exactly when the kind is not
one of the callback keys. -/
def onRaises (event : Str) : Bool := !(callbackKeys.contains event)

/-- WakeSleepSTT.close() emits this event kind after stopping. -/
def closeEmitKind : Str := "closed".data

/-- File path written by WakeSleepSTT._save_transcript for a given strftime
timestamp: os.path.join("transcripts", "transcript_" + ts + ".txt"). -/
def transcriptPath (ts : Str) : Str :=
  "transcripts/transcript_".data ++ ts ++ ".txt".data

/-- WakeSleepSTT._save_transcript modelled as a pure function of the text and
the strftime('%Y-%m-%d_%H-%M-%S') timestamp: returns the (path, content)
written, or none when the stripped text is empty (early return, no file). -/
def save_transcript (text : Str) (ts : Str) : Option (Str × Str) :=
  let t := pyStrip text
  if t = [] then none
  else some (transcriptPath ts, t ++ ['\n'])

/-- WakeSleepSTT.__init__: `self._audio_q = queue.Queue(maxsize=500)`. -/
def audioQueueCapacity : Nat := 500

/-- queue.Queue.put(..., block=False) as used by MicrophoneStream._callback:
when the queue is full the put raises queue.Full, the callback swallows it,
and the frame is dropped; otherwise the frame is appended. -/
def putNowait (cap : Nat) (q : List Nat) (x : Nat) : List Nat :=
  if cap ≤ q.length then q else q ++ [x]

/-- One producer or consumer action on the audio queue. -/
inductive QOp where
  | push (x : Nat)
  | pop
deriving DecidableEq

/-- Apply one queue action: pushes come from the capture callback (drop on
full), pops from the processing loop dequeue. -/
def applyQOp (cap : Nat) (q : List Nat) : QOp → List Nat
  | .push x => putNowait cap q x
  | .pop => q.tail

/-- Run a sequence of queue actions from a starting queue. -/
def runQueue (cap : Nat) (q : List Nat) : List QOp → List Nat
  | [] => q
  | op :: rest => runQueue cap (applyQOp cap q op) rest

/-- Configuration of WakeSleepSTT (wake/sleep word lists are already
lower-cased by __init__; vadThreshold and debounceSecs are floats in the
source, modelled as rationals). -/
structure Config where
  wakeWords : List Str
  sleepWords : List Str
  vadThreshold : ℚ
  debounceSecs : ℚ
deriving DecidableEq

/-- Mutable state read and written by one iteration of
WakeSleepSTT._processing_loop: the loop-local `session_active`, the fields
`_awake`, `_waiting_for_voiced_chunk`, `_session_buffer`, `_last_wake_time`,
and whether `_full_recognizer` / `_hot_recognizer` are non-None. -/
structure ProcState where
  sessionActive : Bool
  awake : Bool
  waiting : Bool
  fullRec : Bool
  hotRec : Bool
  buffer : List Str
  lastWake : ℚ
deriving DecidableEq

/-- Outcome of a recognizer AcceptWaveform call: a boolean, or an exception. -/
inductive FeedRes where
  | ok (accepted : Bool)
  | exn
deriving DecidableEq

/-- Outcome of json.loads applied to a recognizer Result()/PartialResult()
payload, followed by `.get(...) or ''`: the raw text, or an exception. -/
inductive ParseRes where
  | ok (text : Str)
  | exn
deriving DecidableEq

/-- Outcome of `KaldiRecognizer(model, rate)` + `SetWords(False)` for the full
recognizer: success, an exception before the handle is assigned, or an
exception after it is assigned (SetWords raising). -/
inductive CreateRes where
  | ok
  | exnBefore
  | exnAfter
deriving DecidableEq

/-- Oracle values consumed by one iteration of the processing loop for one
dequeued chunk: its RMS energy, the wall clock, and what each external engine
call would return if made during this iteration. -/
structure Input where
  chunkId : Nat
  rms : ℚ
  now : ℚ
  fullCreate : CreateRes
  fullFeed : FeedRes
  fullRes : ParseRes
  fullPart : ParseRes
  hotFeed : FeedRes
  hotRes : ParseRes
deriving DecidableEq

/-- Events emitted through WakeSleepSTT._emit. -/
inductive Event where
  | wake (word : Str) (ts : ℚ)
  | sleep (word : Str) (ts : ℚ)
  | transcript (text : Str) (isFinal : Bool) (ts : ℚ)
  | error
deriving DecidableEq

/-- Observable actions of one loop iteration, recorded in program order. -/
inductive Act where
  | emit (e : Event)
  | createFull
  | clearBuffer
  | disposeHot
  | feedFull (chunkId : Nat)
  | fetchFinal
  | fetchPart
  | save (text : Str)
  | createHot
  | feedHot (chunkId : Nat)
  | fetchHotFinal
deriving DecidableEq

/-- Result of one loop iteration: either the loop continues with a new state,
or an uncaught exception escapes the loop body and the processing thread
dies; both carry the actions performed up to that point. -/
inductive StepRes where
  | ok (st : ProcState) (acts : List Act)
  | died (acts : List Act)
deriving DecidableEq

/-- Sleep teardown shared by the final-result and partial-result paths
(wake_sleep_stt.py lines 186-193 and 200-207): clear flags, save the joined
buffer if non-empty, clear it, drop the full recognizer, recreate the hot
recognizer, emit the sleep event carrying `word`. -/
def sleepTeardown (st : ProcState) (inp : Input) (word : Str) (acts : List Act) : StepRes :=
  let acts1 := if st.buffer = [] then acts else acts ++ [Act.save (joinSpace st.buffer)]
  let st1 : ProcState :=
    { st with sessionActive := false, awake := false, buffer := [],
              fullRec := false, hotRec := true }
  .ok st1 (acts1 ++ [Act.createHot, Act.emit (.sleep word inp.now)])

/-- Processing after the full recognizer feed (wake_sleep_stt.py lines
179-209).  On `accepted`, `json.loads(Result())` is *not* guarded by a
try/except, so a parse exception kills the loop; same for PartialResult. -/
def fullAfterFeed (cfg : Config) (st : ProcState) (inp : Input)
    (acts : List Act) (accepted : Bool) : StepRes :=
  if accepted then
    match inp.fullRes with
    | .exn => .died (acts ++ [Act.fetchFinal])
    | .ok t =>
      let text := pyStrip t
      if text = [] then .ok st (acts ++ [Act.fetchFinal])
      else
        let st1 := { st with buffer := st.buffer ++ [text] }
        let acts1 := acts ++ [Act.fetchFinal, Act.emit (.transcript text true inp.now)]
        if is_sleep_in cfg.sleepWords text = true then sleepTeardown st1 inp text acts1
        else .ok st1 acts1
  else
    match inp.fullPart with
    | .exn => .died (acts ++ [Act.fetchPart])
    | .ok p =>
      let ptext := pyStrip p
      if ptext = [] then .ok st (acts ++ [Act.fetchPart])
      else
        let acts1 := acts ++ [Act.fetchPart, Act.emit (.transcript ptext false inp.now)]
        if is_sleep_in cfg.sleepWords ptext = true then sleepTeardown st inp ptext acts1
        else .ok st acts1

/-- Full-recognizer branch (wake_sleep_stt.py lines 172-209), entered when
`session_active and self._full_recognizer is not None`: AcceptWaveform
exceptions are caught (`error` event, accepted treated as False). -/
def fullBranch (cfg : Config) (st : ProcState) (inp : Input) (acts : List Act) : StepRes :=
  match inp.fullFeed with
  | .exn => fullAfterFeed cfg st inp (acts ++ [Act.feedFull inp.chunkId, Act.emit .error]) false
  | .ok b => fullAfterFeed cfg st inp (acts ++ [Act.feedFull inp.chunkId]) b

/-- Hot-recognizer branch (wake_sleep_stt.py lines 210-223): on a final
result the text is stripped, lower-cased, and a wake trigger records
`_last_wake_time` and sets `_waiting_for_voiced_chunk`; the Result() parse is
unguarded, so a parse exception kills the loop. -/
def hotBranch (cfg : Config) (st : ProcState) (inp : Input) (acts : List Act) : StepRes :=
  match inp.hotFeed with
  | .exn => .ok st (acts ++ [Act.feedHot inp.chunkId, Act.emit .error])
  | .ok false => .ok st (acts ++ [Act.feedHot inp.chunkId])
  | .ok true =>
    match inp.hotRes with
    | .exn => .died (acts ++ [Act.feedHot inp.chunkId, Act.fetchHotFinal])
    | .ok t =>
      let text := pyLower (pyStrip t)
      let acts1 := acts ++ [Act.feedHot inp.chunkId, Act.fetchHotFinal]
      if text ≠ [] ∧ st.sessionActive = false ∧ is_wake_in cfg.wakeWords text = true
          ∧ cfg.debounceSecs < inp.now - st.lastWake then
        .ok { st with lastWake := inp.now, waiting := true } acts1
      else .ok st acts1

/-- One iteration of WakeSleepSTT._processing_loop for one non-None chunk
(lines 154-225).  The `_waiting_for_voiced_chunk` branch either discards a
low-energy chunk, aborts on a creation failure, or transitions to Active and
falls through to feed the very same chunk to the new full recognizer. -/
def processingStep (cfg : Config) (st : ProcState) (inp : Input) : StepRes :=
  if st.waiting = true then
    if cfg.vadThreshold ≤ inp.rms then
      match inp.fullCreate with
      | .exnBefore => .ok { st with waiting := false } [Act.createFull, Act.emit .error]
      | .exnAfter =>
        .ok { st with waiting := false, fullRec := true } [Act.createFull, Act.emit .error]
      | .ok =>
        let st1 := { st with fullRec := true, awake := true, sessionActive := true,
                             buffer := [], waiting := false, hotRec := false }
        fullBranch cfg st1 inp
          [Act.createFull, Act.clearBuffer, Act.disposeHot,
           Act.emit (.wake "hello".data inp.now)]
    else .ok st []
  else
    if st.sessionActive = true ∧ st.fullRec = true then fullBranch cfg st inp []
    else if st.hotRec = true then hotBranch cfg st inp []
    else .ok st []

/-- The actions carried by a step result. -/
def resActs : StepRes → List Act
  | .ok _ acts => acts
  | .died acts => acts

/-- The actions performed by one iteration, whether or not it survives. -/
def stepActs (cfg : Config) (st : ProcState) (inp : Input) : List Act :=
  resActs (processingStep cfg st inp)

/-- State at the top of _processing_loop right after start(): idle, hot
recognizer created, `_last_wake_time = 0.0`. -/
def initState : ProcState :=
  { sessionActive := false, awake := false, waiting := false,
    fullRec := false, hotRec := true, buffer := [], lastWake := 0 }

/-- Run the processing loop over a list of chunks, accumulating the action
trace; a died iteration ends the trace (the thread terminates). -/
def processingRun (cfg : Config) : ProcState → List Input → List Act
  | _, [] => []
  | st, inp :: rest =>
    match processingStep cfg st inp with
    | .ok st' acts => acts ++ processingRun cfg st' rest
    | .died acts => acts

/-- Project an action to its wake/sleep emission, if any. -/
def actWS : Act → Option Bool
  | Act.emit (Event.wake _ _) => some true
  | Act.emit (Event.sleep _ _) => some false
  | _ => none

/-- The wake/sleep subtrace of an action trace (true = wake, false = sleep). -/
def wsProj (acts : List Act) : List Bool := acts.filterMap actWS

/-- Check strict alternation of a wake/sleep trace starting from expectation
`b` (true = a wake is expected next); returns the expectation left after the
trace, or none on an alternation violation. -/
def altRun : Bool → List Bool → Option Bool
  | b, [] => some b
  | b, x :: xs => if x = b then altRun (!b) xs else none

/-- Fixture configuration for concrete checks: the default wake and sleep
words, with integral threshold values (configuration values are arbitrary
floats in the source). -/
def cfgFix : Config :=
  { wakeWords := ["hello".data], sleepWords := ["goodbye".data],
    vadThreshold := 1, debounceSecs := 1 }

/-- Fixture state: idle with a hot recognizer, last wake at time 2. -/
def stIdleFix : ProcState :=
  { sessionActive := false, awake := false, waiting := false, fullRec := false,
    hotRec := true, buffer := [], lastWake := 2 }

/-- Fixture state: pending voice start after an accepted wake word. -/
def stWaitFix : ProcState := { stIdleFix with waiting := true }

/-- Fixture state: active session holding one buffered segment. -/
def stActiveFix : ProcState :=
  { sessionActive := true, awake := true, waiting := false, fullRec := true,
    hotRec := false, buffer := ["hi there".data], lastWake := 0 }

/-- Fixture input with neutral oracle values, customised per check. -/
def inpFix0 : Input :=
  { chunkId := 0, rms := 0, now := 5, fullCreate := .ok, fullFeed := .ok false,
    fullRes := .ok [], fullPart := .ok [], hotFeed := .ok false, hotRes := .ok [] }

theorem wsProj_append (a b : List Act) : wsProj (a ++ b) = wsProj a ++ wsProj b := by
  simp [wsProj, List.filterMap_append]

theorem mem_wake_wsProj {l : List Act} {w : Str} {ts : ℚ}
    (h : Act.emit (Event.wake w ts) ∈ l) : true ∈ wsProj l := by
  simp only [wsProj, List.mem_filterMap]
  exact ⟨_, h, rfl⟩

theorem altRun_append {l1 l2 : List Bool} {b b' : Bool} (h : altRun b l1 = some b') :
    altRun b (l1 ++ l2) = altRun b' l2 := by
  induction l1 generalizing b with
  | nil =>
    simp only [altRun, Option.some.injEq] at h
    subst h
    simp
  | cons x xs ih =>
    by_cases hx : x = b
    · simp only [altRun, if_pos hx] at h
      simpa [altRun, if_pos hx] using ih h
    · simp [altRun, if_neg hx] at h

theorem sleepTeardown_spec (st : ProcState) (inp : Input) (word : Str) (acts : List Act) :
    ∃ st' tail, sleepTeardown st inp word acts = .ok st' (acts ++ tail) ∧
      wsProj tail = [false] ∧ st'.sessionActive = false ∧ st'.waiting = st.waiting ∧
      st'.buffer = [] ∧ st'.fullRec = false ∧ st'.hotRec = true ∧
      (∀ w ts, Act.emit (Event.wake w ts) ∉ tail) := by
  unfold sleepTeardown
  by_cases hb : st.buffer = []
  · refine ⟨{ st with sessionActive := false, awake := false, buffer := [],
                      fullRec := false, hotRec := true },
      [Act.createHot, Act.emit (.sleep word inp.now)],
      ?_, by simp [wsProj, actWS], rfl, rfl, rfl, rfl, rfl, by simp⟩
    simp [hb]
  · refine ⟨{ st with sessionActive := false, awake := false, buffer := [],
                      fullRec := false, hotRec := true },
      [Act.save (joinSpace st.buffer), Act.createHot, Act.emit (.sleep word inp.now)],
      ?_, by simp [wsProj, actWS], rfl, rfl, rfl, rfl, rfl, by simp⟩
    simp [hb]

theorem fullAfterFeed_spec (cfg : Config) (st : ProcState) (inp : Input) (acts : List Act)
    (accepted : Bool) (hs : st.sessionActive = true) :
    (∃ st' tail, fullAfterFeed cfg st inp acts accepted = .ok st' (acts ++ tail) ∧
        (wsProj tail = [] ∧ st'.sessionActive = true ∨
         wsProj tail = [false] ∧ st'.sessionActive = false) ∧
        st'.waiting = st.waiting ∧
        (∀ w ts, Act.emit (Event.wake w ts) ∉ tail)) ∨
    (∃ tail, fullAfterFeed cfg st inp acts accepted = .died (acts ++ tail) ∧
        wsProj tail = [] ∧ (∀ w ts, Act.emit (Event.wake w ts) ∉ tail)) := by
  unfold fullAfterFeed
  cases accepted with
  | true =>
    cases hres : inp.fullRes with
    | exn => exact Or.inr ⟨[Act.fetchFinal], by simp, by simp [wsProj, actWS], by simp⟩
    | ok t =>
      by_cases ht : pyStrip t = []
      · exact Or.inl ⟨st, [Act.fetchFinal], by simp [ht], Or.inl ⟨by simp [wsProj, actWS], hs⟩,
          rfl, by simp⟩
      · by_cases hsl : is_sleep_in cfg.sleepWords (pyStrip t) = true
        · obtain ⟨st', tail, heq, hproj, hsa, hwait, hbuf, hfr, hhr, hwk⟩ :=
            sleepTeardown_spec { st with buffer := st.buffer ++ [pyStrip t] } inp (pyStrip t)
              (acts ++ [Act.fetchFinal, Act.emit (.transcript (pyStrip t) true inp.now)])
          refine Or.inl ⟨st', [Act.fetchFinal,
            Act.emit (.transcript (pyStrip t) true inp.now)] ++ tail, ?_,
            Or.inr ⟨?_, hsa⟩, hwait, ?_⟩
          · simp [ht, hsl, heq, List.append_assoc]
          · rw [wsProj_append, hproj]
            simp [wsProj, actWS]
          · intro w ts hmem
            rcases List.mem_append.1 hmem with hmem | hmem
            · simp at hmem
            · exact hwk w ts hmem
        · refine Or.inl ⟨{ st with buffer := st.buffer ++ [pyStrip t] },
            [Act.fetchFinal, Act.emit (.transcript (pyStrip t) true inp.now)],
            by simp [ht, hsl], Or.inl ⟨by simp [wsProj, actWS], hs⟩, rfl, by simp⟩
  | false =>
    cases hres : inp.fullPart with
    | exn => exact Or.inr ⟨[Act.fetchPart], by simp, by simp [wsProj, actWS], by simp⟩
    | ok p =>
      by_cases hp : pyStrip p = []
      · exact Or.inl ⟨st, [Act.fetchPart], by simp [hp], Or.inl ⟨by simp [wsProj, actWS], hs⟩,
          rfl, by simp⟩
      · by_cases hsl : is_sleep_in cfg.sleepWords (pyStrip p) = true
        · obtain ⟨st', tail, heq, hproj, hsa, hwait, hbuf, hfr, hhr, hwk⟩ :=
            sleepTeardown_spec st inp (pyStrip p)
              (acts ++ [Act.fetchPart, Act.emit (.transcript (pyStrip p) false inp.now)])
          refine Or.inl ⟨st', [Act.fetchPart,
            Act.emit (.transcript (pyStrip p) false inp.now)] ++ tail, ?_,
            Or.inr ⟨?_, hsa⟩, hwait, ?_⟩
          · simp [hp, hsl, heq, List.append_assoc]
          · rw [wsProj_append, hproj]
            simp [wsProj, actWS]
          · intro w ts hmem
            rcases List.mem_append.1 hmem with hmem | hmem
            · simp at hmem
            · exact hwk w ts hmem
        · refine Or.inl ⟨st,
            [Act.fetchPart, Act.emit (.transcript (pyStrip p) false inp.now)],
            by simp [hp, hsl], Or.inl ⟨by simp [wsProj, actWS], hs⟩, rfl, by simp⟩

theorem fullBranch_spec (cfg : Config) (st : ProcState) (inp : Input) (acts : List Act)
    (hs : st.sessionActive = true) :
    (∃ st' tail, fullBranch cfg st inp acts = .ok st' (acts ++ tail) ∧
        (wsProj tail = [] ∧ st'.sessionActive = true ∨
         wsProj tail = [false] ∧ st'.sessionActive = false) ∧
        st'.waiting = st.waiting ∧
        (∀ w ts, Act.emit (Event.wake w ts) ∉ tail)) ∨
    (∃ tail, fullBranch cfg st inp acts = .died (acts ++ tail) ∧ wsProj tail = [] ∧
        (∀ w ts, Act.emit (Event.wake w ts) ∉ tail)) := by
  unfold fullBranch
  cases hf : inp.fullFeed with
  | exn =>
    rcases fullAfterFeed_spec cfg st inp
        (acts ++ [Act.feedFull inp.chunkId, Act.emit .error]) false hs with
      ⟨st', tail, heq, hproj, hwait, hwk⟩ | ⟨tail, heq, hproj, hwk⟩
    · refine Or.inl ⟨st', [Act.feedFull inp.chunkId, Act.emit .error] ++ tail,
        by simp only [heq, List.append_assoc], ?_, hwait, ?_⟩
      · rcases hproj with ⟨h1, h2⟩ | ⟨h1, h2⟩
        · refine Or.inl ⟨?_, h2⟩
          rw [wsProj_append, h1]
          simp [wsProj, actWS]
        · refine Or.inr ⟨?_, h2⟩
          rw [wsProj_append, h1]
          simp [wsProj, actWS]
      · intro w ts hmem
        rcases List.mem_append.1 hmem with hmem | hmem
        · simp at hmem
        · exact hwk w ts hmem
    · refine Or.inr ⟨[Act.feedFull inp.chunkId, Act.emit .error] ++ tail,
        by simp only [heq, List.append_assoc],
        by rw [wsProj_append, hproj]; simp [wsProj, actWS], ?_⟩
      intro w ts hmem
      rcases List.mem_append.1 hmem with hmem | hmem
      · simp at hmem
      · exact hwk w ts hmem
  | ok b =>
    rcases fullAfterFeed_spec cfg st inp (acts ++ [Act.feedFull inp.chunkId]) b hs with
      ⟨st', tail, heq, hproj, hwait, hwk⟩ | ⟨tail, heq, hproj, hwk⟩
    · refine Or.inl ⟨st', [Act.feedFull inp.chunkId] ++ tail,
        by simp only [heq, List.append_assoc], ?_, hwait, ?_⟩
      · rcases hproj with ⟨h1, h2⟩ | ⟨h1, h2⟩
        · refine Or.inl ⟨?_, h2⟩
          rw [wsProj_append, h1]
          simp [wsProj, actWS]
        · refine Or.inr ⟨?_, h2⟩
          rw [wsProj_append, h1]
          simp [wsProj, actWS]
      · intro w ts hmem
        rcases List.mem_append.1 hmem with hmem | hmem
        · simp at hmem
        · exact hwk w ts hmem
    · refine Or.inr ⟨[Act.feedFull inp.chunkId] ++ tail,
        by simp only [heq, List.append_assoc],
        by rw [wsProj_append, hproj]; simp [wsProj, actWS], ?_⟩
      intro w ts hmem
      rcases List.mem_append.1 hmem with hmem | hmem
      · simp at hmem
      · exact hwk w ts hmem

theorem hotBranch_spec (cfg : Config) (st : ProcState) (inp : Input) (acts : List Act) :
    (∃ st' tail, hotBranch cfg st inp acts = .ok st' (acts ++ tail) ∧ wsProj tail = [] ∧
        st'.sessionActive = st.sessionActive ∧ st'.buffer = st.buffer ∧
        (st'.waiting = st.waiting ∨ (st'.waiting = true ∧ st.sessionActive = false)) ∧
        (∀ w ts, Act.emit (Event.wake w ts) ∉ tail)) ∨
    (∃ tail, hotBranch cfg st inp acts = .died (acts ++ tail) ∧ wsProj tail = [] ∧
        (∀ w ts, Act.emit (Event.wake w ts) ∉ tail)) := by
  unfold hotBranch
  cases hf : inp.hotFeed with
  | exn =>
    exact Or.inl ⟨st, [Act.feedHot inp.chunkId, Act.emit .error], by simp,
      by simp [wsProj, actWS], rfl, rfl, Or.inl rfl, by simp⟩
  | ok b =>
    cases b with
    | false =>
      exact Or.inl ⟨st, [Act.feedHot inp.chunkId], by simp,
        by simp [wsProj, actWS], rfl, rfl, Or.inl rfl, by simp⟩
    | true =>
      cases hres : inp.hotRes with
      | exn =>
        exact Or.inr ⟨[Act.feedHot inp.chunkId, Act.fetchHotFinal], by simp,
          by simp [wsProj, actWS], by simp⟩
      | ok t =>
        by_cases hc : pyLower (pyStrip t) ≠ [] ∧ st.sessionActive = false ∧
            is_wake_in cfg.wakeWords (pyLower (pyStrip t)) = true ∧
            cfg.debounceSecs < inp.now - st.lastWake
        · exact Or.inl ⟨{ st with lastWake := inp.now, waiting := true },
            [Act.feedHot inp.chunkId, Act.fetchHotFinal], by simp [hc],
            by simp [wsProj, actWS], rfl, rfl, Or.inr ⟨rfl, hc.2.1⟩, by simp⟩
        · exact Or.inl ⟨st, [Act.feedHot inp.chunkId, Act.fetchHotFinal], by simp [hc],
            by simp [wsProj, actWS], rfl, rfl, Or.inl rfl, by simp⟩

theorem processingStep_spec (cfg : Config) (st : ProcState) (inp : Input)
    (hInv : st.waiting = true → st.sessionActive = false) :
    (∃ st' acts, processingStep cfg st inp = .ok st' acts ∧
        altRun (!st.sessionActive) (wsProj acts) = some (!st'.sessionActive) ∧
        (st'.waiting = true → st'.sessionActive = false) ∧
        (∀ w ts, Act.emit (Event.wake w ts) ∈ acts → w = "hello".data ∧ ts = inp.now)) ∨
    (∃ acts, processingStep cfg st inp = .died acts ∧
        (altRun (!st.sessionActive) (wsProj acts)).isSome = true ∧
        (∀ w ts, Act.emit (Event.wake w ts) ∈ acts → w = "hello".data ∧ ts = inp.now)) := by
  unfold processingStep
  by_cases hw : st.waiting = true
  · have hs : st.sessionActive = false := hInv hw
    rw [if_pos hw]
    by_cases hr : cfg.vadThreshold ≤ inp.rms
    · rw [if_pos hr]
      cases hc : inp.fullCreate with
      | exnBefore =>
        refine Or.inl ⟨_, _, rfl, ?_, by simp, by simp⟩
        simp [wsProj, actWS, altRun]
      | exnAfter =>
        refine Or.inl ⟨_, _, rfl, ?_, by simp, by simp⟩
        simp [wsProj, actWS, altRun]
      | ok =>
        have hs1 : (⟨true, true, false, true, false, [], st.lastWake⟩ : ProcState).sessionActive
            = true := rfl
        rcases fullBranch_spec cfg
            { st with fullRec := true, awake := true, sessionActive := true,
                      buffer := [], waiting := false, hotRec := false } inp
            [Act.createFull, Act.clearBuffer, Act.disposeHot,
             Act.emit (.wake "hello".data inp.now)] rfl with
          ⟨st', tail, heq, hproj, hwait, hwk⟩ | ⟨tail, heq, hproj, hwk⟩
        · refine Or.inl ⟨st', _, heq, ?_, ?_, ?_⟩
          · rw [wsProj_append]
            have h1 : wsProj [Act.createFull, Act.clearBuffer, Act.disposeHot,
                Act.emit (.wake "hello".data inp.now)] = [true] := by simp [wsProj, actWS]
            rw [h1, hs]
            have h2 : altRun (!false) ([true] ++ wsProj tail) = altRun false (wsProj tail) := by
              simp [altRun]
            rw [h2]
            rcases hproj with ⟨ht, hsa⟩ | ⟨ht, hsa⟩
            · rw [ht, hsa]; rfl
            · rw [ht, hsa]; rfl
          · intro h
            rw [hwait] at h
            simp at h
          · intro w ts hmem
            rcases List.mem_append.1 hmem with hmem | hmem
            · simp only [List.mem_cons, List.mem_singleton] at hmem
              rcases hmem with h | h | h | h <;> simp_all
            · exact absurd hmem (hwk w ts)
        · refine Or.inr ⟨_, heq, ?_, ?_⟩
          · rw [wsProj_append]
            have h1 : wsProj [Act.createFull, Act.clearBuffer, Act.disposeHot,
                Act.emit (.wake "hello".data inp.now)] = [true] := by simp [wsProj, actWS]
            rw [h1, hproj, hs]
            rfl
          · intro w ts hmem
            rcases List.mem_append.1 hmem with hmem | hmem
            · simp only [List.mem_cons, List.mem_singleton] at hmem
              rcases hmem with h | h | h | h <;> simp_all
            · exact absurd hmem (hwk w ts)
    · rw [if_neg hr]
      exact Or.inl ⟨st, [], rfl, by simp [wsProj, altRun], fun _ => hs, by simp⟩
  · have hwf : st.waiting = false := by simpa using hw
    rw [if_neg hw]
    by_cases hsf : st.sessionActive = true ∧ st.fullRec = true
    · rw [if_pos hsf]
      rcases fullBranch_spec cfg st inp [] hsf.1 with
        ⟨st', tail, heq, hproj, hwait, hwk⟩ | ⟨tail, heq, hproj, hwk⟩
      · refine Or.inl ⟨st', _, heq, ?_, ?_, ?_⟩
        · rw [List.nil_append, hsf.1]
          rcases hproj with ⟨ht, hsa⟩ | ⟨ht, hsa⟩
          · rw [ht, hsa]; rfl
          · rw [ht, hsa]; rfl
        · intro h
          rw [hwait, hwf] at h
          exact absurd h (by simp)
        · intro w ts hmem
          rw [List.nil_append] at hmem
          exact absurd hmem (hwk w ts)
      · refine Or.inr ⟨_, heq, ?_, ?_⟩
        · rw [List.nil_append, hproj, hsf.1]
          rfl
        · intro w ts hmem
          rw [List.nil_append] at hmem
          exact absurd hmem (hwk w ts)
    · rw [if_neg hsf]
      by_cases hh : st.hotRec = true
      · rw [if_pos hh]
        rcases hotBranch_spec cfg st inp [] with
          ⟨st', tail, heq, hproj, hsa, hbuf, hwaitd, hwk⟩ | ⟨tail, heq, hproj, hwk⟩
        · refine Or.inl ⟨st', _, heq, ?_, ?_, ?_⟩
          · rw [List.nil_append, hproj, hsa]
            rfl
          · intro h
            rcases hwaitd with hww | ⟨_, hses⟩
            · rw [hww, hwf] at h
              exact absurd h (by simp)
            · rw [hsa, hses]
          · intro w ts hmem
            rw [List.nil_append] at hmem
            exact absurd hmem (hwk w ts)
        · refine Or.inr ⟨_, heq, ?_, ?_⟩
          · rw [List.nil_append, hproj]
            rfl
          · intro w ts hmem
            rw [List.nil_append] at hmem
            exact absurd hmem (hwk w ts)
      · rw [if_neg hh]
        exact Or.inl ⟨st, [], rfl, by simp [wsProj, altRun],
          fun h => absurd h (by simp [hwf]), by simp⟩

theorem processingRun_alt (cfg : Config) (inps : List Input) : ∀ (st : ProcState),
    (st.waiting = true → st.sessionActive = false) →
    (altRun (!st.sessionActive) (wsProj (processingRun cfg st inps))).isSome = true := by
  induction inps with
  | nil =>
    intro st _
    simp [processingRun, wsProj, altRun]
  | cons inp rest ih =>
    intro st hInv
    rcases processingStep_spec cfg st inp hInv with
      ⟨st', acts, heq, halt, hinv2, _⟩ | ⟨acts, heq, hsome, _⟩
    · have hrun : processingRun cfg st (inp :: rest) = acts ++ processingRun cfg st' rest := by
        simp [processingRun, heq]
      rw [hrun, wsProj_append, altRun_append halt]
      exact ih st' hinv2
    · have hrun : processingRun cfg st (inp :: rest) = acts := by
        simp [processingRun, heq]
      rw [hrun]
      exact hsome

/-- C7: in every action trace of the processing loop started from the idle
initial state, wake and sleep events strictly alternate beginning with a
wake: the wake/sleep projection passes the alternation check, so every sleep
event is preceded by exactly one unmatched wake event and no two wake events
occur without an intervening sleep event or end of the trace. -/
theorem c7_wake_sleep_alternation (cfg : Config) (inps : List Input) :
    (altRun true (wsProj (processingRun cfg initState inps))).isSome = true := by
  have h := processingRun_alt cfg inps initState (by intro h; exact absurd h (by simp [initState]))
  simpa [initState] using h

theorem fullBranch_head (cfg : Config) (st : ProcState) (inp : Input) (acts : List Act)
    (hs : st.sessionActive = true) :
    ∃ rest, resActs (fullBranch cfg st inp acts) = acts ++ Act.feedFull inp.chunkId :: rest := by
  unfold fullBranch
  cases hf : inp.fullFeed with
  | exn =>
    rcases fullAfterFeed_spec cfg st inp
        (acts ++ [Act.feedFull inp.chunkId, Act.emit .error]) false hs with
      ⟨st', tail, heq, _, _, _⟩ | ⟨tail, heq, _, _⟩
    · exact ⟨Act.emit .error :: tail, by simp [resActs, heq]⟩
    · exact ⟨Act.emit .error :: tail, by simp [resActs, heq]⟩
  | ok b =>
    rcases fullAfterFeed_spec cfg st inp (acts ++ [Act.feedFull inp.chunkId]) b hs with
      ⟨st', tail, heq, _, _, _⟩ | ⟨tail, heq, _, _⟩
    · exact ⟨tail, by simp [resActs, heq]⟩
    · exact ⟨tail, by simp [resActs, heq]⟩

/-- C8: with `_waiting_for_voiced_chunk` set after an accepted wake word, a
chunk whose RMS energy is below vadThreshold is discarded with no state
change and no actions; a chunk with RMS at or above vadThreshold (when the
full recognizer is created successfully) produces, in program order, the
creation of the Full recognizer, the clearing of the transcript buffer, the
disposal of the Hot recognizer, the emission of a wake event, and the feed of
that same chunk to the Full recognizer, with exactly one wake event emitted
in the whole iteration. -/
theorem c8_vad_gating (cfg : Config) (st : ProcState) (inp : Input)
    (hw : st.waiting = true) :
    (inp.rms < cfg.vadThreshold → processingStep cfg st inp = .ok st []) ∧
    (cfg.vadThreshold ≤ inp.rms → inp.fullCreate = .ok →
      (∃ tail, stepActs cfg st inp =
          Act.createFull :: Act.clearBuffer :: Act.disposeHot ::
          Act.emit (.wake "hello".data inp.now) :: Act.feedFull inp.chunkId :: tail) ∧
      (wsProj (stepActs cfg st inp)).count true = 1) := by
  constructor
  · intro hlt
    unfold processingStep
    rw [if_pos hw, if_neg (not_le.mpr hlt)]
  · intro hr hc
    have hstep : processingStep cfg st inp
        = fullBranch cfg
            { st with fullRec := true, awake := true, sessionActive := true,
                      buffer := [], waiting := false, hotRec := false } inp
            [Act.createFull, Act.clearBuffer, Act.disposeHot,
             Act.emit (.wake "hello".data inp.now)] := by
      unfold processingStep
      rw [if_pos hw, if_pos hr, hc]
    have hacts : stepActs cfg st inp
        = resActs (fullBranch cfg
            { st with fullRec := true, awake := true, sessionActive := true,
                      buffer := [], waiting := false, hotRec := false } inp
            [Act.createFull, Act.clearBuffer, Act.disposeHot,
             Act.emit (.wake "hello".data inp.now)]) := by
      rw [stepActs, hstep]
    constructor
    · obtain ⟨rest, hhead⟩ := fullBranch_head cfg
        { st with fullRec := true, awake := true, sessionActive := true,
                  buffer := [], waiting := false, hotRec := false } inp
        [Act.createFull, Act.clearBuffer, Act.disposeHot,
         Act.emit (.wake "hello".data inp.now)] rfl
      exact ⟨rest, by rw [hacts, hhead]; simp⟩
    · rcases fullBranch_spec cfg
          { st with fullRec := true, awake := true, sessionActive := true,
                    buffer := [], waiting := false, hotRec := false } inp
          [Act.createFull, Act.clearBuffer, Act.disposeHot,
           Act.emit (.wake "hello".data inp.now)] rfl with
        ⟨st', tail, heq, hproj, _, _⟩ | ⟨tail, heq, hproj, _⟩
      · rw [hacts, heq]
        simp only [resActs, wsProj_append, List.count_append]
        have h1 : (wsProj [Act.createFull, Act.clearBuffer, Act.disposeHot,
            Act.emit (.wake "hello".data inp.now)]).count true = 1 := by
          simp [wsProj, actWS]
        rcases hproj with ⟨ht, _⟩ | ⟨ht, _⟩ <;> rw [ht] <;> simp [wsProj, actWS]
      · rw [hacts, heq]
        simp only [resActs, wsProj_append, List.count_append]
        rw [hproj]
        simp [wsProj, actWS]

/-- C10: every wake event emitted by an iteration of the processing loop
carries the hardcoded payload word 'hello', regardless of the configured wake
words and of which word was matched. -/
theorem c10_wake_word_hardcoded (cfg : Config) (st : ProcState) (inp : Input)
    (w : Str) (ts : ℚ) (hInv : st.waiting = true → st.sessionActive = false)
    (h : Act.emit (Event.wake w ts) ∈ stepActs cfg st inp) : w = "hello".data := by
  rcases processingStep_spec cfg st inp hInv with
    ⟨st', acts, heq, _, _, hwk⟩ | ⟨acts, heq, _, hwk⟩
  · exact (hwk w ts (by rw [stepActs, heq] at h; exact h)).1
  · exact (hwk w ts (by rw [stepActs, heq] at h; exact h)).1

/-- C6: a hot-recognizer final result containing a wake word that arrives
within the debounce window (now - lastWake ≤ debounceSecs) is ignored: the
iteration performs only the feed and result fetch, emits nothing, and leaves
the whole state — including `_last_wake_time` — unchanged. -/
theorem c6_debounce (cfg : Config) (st : ProcState) (inp : Input) (t : Str)
    (hw : st.waiting = false) (hs : st.sessionActive = false) (hh : st.hotRec = true)
    (hfeed : inp.hotFeed = .ok true) (hres : inp.hotRes = .ok t)
    (hwake : is_wake_in cfg.wakeWords (pyLower (pyStrip t)) = true)
    (hdeb : inp.now - st.lastWake ≤ cfg.debounceSecs) :
    processingStep cfg st inp = .ok st [Act.feedHot inp.chunkId, Act.fetchHotFinal] := by
  have hcond : ¬(pyLower (pyStrip t) ≠ [] ∧ st.sessionActive = false ∧
      is_wake_in cfg.wakeWords (pyLower (pyStrip t)) = true ∧
      cfg.debounceSecs < inp.now - st.lastWake) := by
    rintro ⟨-, -, -, hlt⟩
    exact absurd hlt (not_lt.mpr hdeb)
  unfold processingStep
  rw [if_neg (by simp [hw]), if_neg (by simp [hs]), if_pos hh]
  simp only [hotBranch, hfeed, hres]
  rw [if_neg hcond]
  simp

theorem listPrefixOf_append (p t : Str) : listPrefixOf p (p ++ t) = true := by
  induction p with
  | nil => rfl
  | cons c cs ih => simp [listPrefixOf, ih]

theorem listSubstr_of_parts (p : Str) : ∀ (pre post : Str),
    listSubstr p (pre ++ p ++ post) = true := by
  intro pre
  induction pre with
  | nil =>
    intro post
    cases hpp : p ++ post with
    | nil =>
      have hp : p = [] := by
        cases p
        · rfl
        · simp at hpp
      subst hp
      cases post <;> simp [listSubstr, listPrefixOf]
    | cons a l =>
      show listSubstr p (p ++ post) = true
      rw [hpp]
      show (listPrefixOf p (a :: l) || listSubstr p l) = true
      rw [← hpp, listPrefixOf_append]
      rfl
  | cons c cs ih =>
    intro post
    show (listPrefixOf p (c :: (cs ++ p ++ post)) || listSubstr p (cs ++ p ++ post)) = true
    rw [ih post]
    simp

theorem pySplitAux_mem_parts : ∀ (s acc p : Str), p ∈ pySplitAux s acc →
    ∃ pre post, acc.reverse ++ s = pre ++ p ++ post := by
  intro s
  induction s with
  | nil =>
    intro acc p hp
    unfold pySplitAux at hp
    by_cases ha : acc = []
    · rw [if_pos ha] at hp
      simp at hp
    · rw [if_neg ha] at hp
      simp at hp
      subst hp
      exact ⟨[], [], by simp⟩
  | cons c rest ih =>
    intro acc p hp
    unfold pySplitAux at hp
    by_cases hsp : isSpaceChar c = true
    · rw [if_pos hsp] at hp
      by_cases ha : acc = []
      · rw [if_pos ha] at hp
        obtain ⟨pre, post, heq⟩ := ih [] p hp
        simp only [List.reverse_nil, List.nil_append] at heq
        exact ⟨c :: pre, post, by simp [ha, heq]⟩
      · rw [if_neg ha] at hp
        rcases List.mem_cons.1 hp with rfl | hp2
        · exact ⟨[], c :: rest, by simp⟩
        · obtain ⟨pre, post, heq⟩ := ih [] p hp2
          simp only [List.reverse_nil, List.nil_append] at heq
          exact ⟨acc.reverse ++ c :: pre, post, by simp [heq, List.append_assoc]⟩
    · rw [if_neg hsp] at hp
      obtain ⟨pre, post, heq⟩ := ih (c :: acc) p hp
      refine ⟨pre, post, ?_⟩
      simpa [List.append_assoc] using heq

theorem mem_pySplit_substr {p s : Str} (h : p ∈ pySplit s) : listSubstr p s = true := by
  obtain ⟨pre, post, heq⟩ := pySplitAux_mem_parts s [] p h
  simp only [List.reverse_nil, List.nil_append] at heq
  rw [heq]
  exact listSubstr_of_parts p pre post

theorem hot_trigger (cfg : Config) (st : ProcState) (inp : Input) (t : Str)
    (hw : st.waiting = false) (hs : st.sessionActive = false) (hh : st.hotRec = true)
    (hfeed : inp.hotFeed = .ok true) (hres : inp.hotRes = .ok t)
    (hne : pyLower (pyStrip t) ≠ [])
    (hwake : is_wake_in cfg.wakeWords (pyLower (pyStrip t)) = true)
    (hdeb : cfg.debounceSecs < inp.now - st.lastWake) :
    processingStep cfg st inp
      = .ok { st with lastWake := inp.now, waiting := true }
          [Act.feedHot inp.chunkId, Act.fetchHotFinal] := by
  unfold processingStep
  rw [if_neg (by simp [hw]), if_neg (by simp [hs]), if_pos hh]
  simp only [hotBranch, hfeed, hres]
  rw [if_pos ⟨hne, hs, hwake, hdeb⟩]
  simp

/-- C1 counterexample: the module treats the text "say othello" as containing
the wake word "hello" — a substring of the longer token "othello" — and a hot
final result carrying it, outside the debounce window, does trigger the wake
transition to PendingVoiceStart, even though no whitespace-delimited
lower-cased token of the text equals "hello". -/
theorem c1_counterexample :
    is_wake_in ["hello".data] "say othello".data = true ∧
    token_exact_in "say othello".data ["hello".data] = false ∧
    processingStep cfgFix stIdleFix
        { inpFix0 with now := 4, hotFeed := .ok true, hotRes := .ok "say othello".data }
      = .ok { stIdleFix with waiting := true, lastWake := 4 }
          [Act.feedHot 0, Act.fetchHotFinal] := by
  refine ⟨by decide, by decide, ?_⟩
  exact hot_trigger _ _ _ _ rfl rfl rfl rfl rfl (by decide) (by decide)
    (by norm_num [cfgFix, stIdleFix])

/-- C1 (amended): the module controller matches by lower-cased substring
containment, which is strictly more permissive than the demo's exact-token
policy: every text with a whitespace-delimited lower-cased token exactly
equal to a configured word is treated as containing it, while (per the
counterexample) texts that merely contain a configured word inside a longer
token also trigger. -/
theorem c1_substring_weaker_than_token (wakeWords : List Str) (text : Str)
    (h : token_exact_in text wakeWords = true) : is_wake_in wakeWords text = true := by
  unfold token_exact_in at h
  by_cases htext : text = []
  · rw [if_pos htext] at h
    exact absurd h (by simp)
  · rw [if_neg htext] at h
    obtain ⟨p, hpmem, hpin⟩ := List.any_eq_true.1 h
    have hsub : listSubstr p (pyLower text) = true := mem_pySplit_substr hpmem
    unfold is_wake_in
    rw [List.any_eq_true]
    refine ⟨p, ?_, hsub⟩
    simpa using hpin

/-- Witness for c1_substring_weaker_than_token: "hello world" has the exact
token "hello", and the module matcher accepts it as well. -/
theorem c1_substring_weaker_witness :
    token_exact_in "hello world".data ["hello".data] = true ∧
    is_wake_in ["hello".data] "hello world".data = true :=
  ⟨by decide, c1_substring_weaker_than_token ["hello".data] "hello world".data (by decide)⟩

/-- C2: subscription succeeds exactly for the four kinds initialised in
__init__ — 'wake', 'sleep', 'transcript', 'error'.  The kind 'closed' is
emitted by close() but has no callback list, so on('closed', cb) raises
ValueError, contradicting the documented subscription kind set. -/
theorem c2_closed_kind_not_subscribable :
    onRaises "wake".data = false ∧ onRaises "sleep".data = false ∧
    onRaises "transcript".data = false ∧ onRaises "error".data = false ∧
    onRaises closeEmitKind = true ∧ closeEmitKind ∉ callbackKeys := by
  refine ⟨rfl, rfl, rfl, rfl, rfl, ?_⟩
  decide

/-- C3 counterexample: at a concrete Active state with a buffered segment and
a partial result "goodbye", the iteration persists exactly the pre-existing
buffer and performs no Result() force-fetch — there is no fetchFinal action —
contradicting the claimed force-fetch-then-append behaviour. -/
theorem c3_counterexample :
    stepActs cfgFix stActiveFix { inpFix0 with fullPart := .ok "goodbye".data }
      = [Act.feedFull 0, Act.fetchPart,
         Act.emit (.transcript "goodbye".data false 5),
         Act.save "hi there".data, Act.createHot,
         Act.emit (.sleep "goodbye".data 5)] ∧
    Act.fetchFinal ∉ stepActs cfgFix stActiveFix { inpFix0 with fullPart := .ok "goodbye".data } := by
  constructor <;> decide

/-- C3 (amended): in state Active, when AcceptWaveform returns False and the
partial result is non-empty and contains a configured sleep word, the module
emits the partial transcript event, persists the space-joined buffer (here
non-empty), clears it, drops the Full recognizer, recreates the Hot
recognizer and emits the sleep event carrying the partial text — without
force-fetching a final result from the Full recognizer (no Result() call in
this path; the force-fetch exists only in the demo variant). -/
theorem c3_partial_sleep_no_force_fetch (cfg : Config) (st : ProcState) (inp : Input) (p : Str)
    (hw : st.waiting = false) (hs : st.sessionActive = true) (hf : st.fullRec = true)
    (hfeed : inp.fullFeed = .ok false) (hpart : inp.fullPart = .ok p)
    (hne : pyStrip p ≠ []) (hsl : is_sleep_in cfg.sleepWords (pyStrip p) = true)
    (hbuf : st.buffer ≠ []) :
    processingStep cfg st inp =
      .ok { st with sessionActive := false, awake := false, buffer := [],
                    fullRec := false, hotRec := true }
        [Act.feedFull inp.chunkId, Act.fetchPart,
         Act.emit (.transcript (pyStrip p) false inp.now),
         Act.save (joinSpace st.buffer), Act.createHot,
         Act.emit (.sleep (pyStrip p) inp.now)] ∧
    Act.fetchFinal ∉ stepActs cfg st inp := by
  have hstep : processingStep cfg st inp =
      .ok { st with sessionActive := false, awake := false, buffer := [],
                    fullRec := false, hotRec := true }
        [Act.feedFull inp.chunkId, Act.fetchPart,
         Act.emit (.transcript (pyStrip p) false inp.now),
         Act.save (joinSpace st.buffer), Act.createHot,
         Act.emit (.sleep (pyStrip p) inp.now)] := by
    unfold processingStep
    rw [if_neg (by simp [hw]), if_pos ⟨hs, hf⟩]
    simp only [fullBranch, hfeed, fullAfterFeed, hpart, Bool.false_eq_true, if_false]
    rw [if_neg hne, if_pos hsl]
    simp only [sleepTeardown]
    rw [if_neg hbuf]
    simp
  refine ⟨hstep, ?_⟩
  rw [stepActs, hstep]
  simp [resActs]

/-- Witness for c3_partial_sleep_no_force_fetch at the concrete fixture. -/
theorem c3_partial_sleep_witness :
    processingStep cfgFix stActiveFix { inpFix0 with fullPart := .ok "goodbye".data }
      = .ok { stActiveFix with sessionActive := false, awake := false, buffer := [],
                               fullRec := false, hotRec := true }
          [Act.feedFull 0, Act.fetchPart,
           Act.emit (.transcript (pyStrip "goodbye".data) false 5),
           Act.save (joinSpace stActiveFix.buffer), Act.createHot,
           Act.emit (.sleep (pyStrip "goodbye".data) 5)] ∧
    Act.fetchFinal ∉ stepActs cfgFix stActiveFix { inpFix0 with fullPart := .ok "goodbye".data } :=
  c3_partial_sleep_no_force_fetch _ _ _ _ rfl rfl rfl rfl rfl
    (by decide) (by decide) (by decide)

/-- C4 counterexample: at a concrete Active state, when AcceptWaveform
accepts the chunk but the Result() payload fails to parse, the iteration dies
(the uncaught exception terminates the processing loop) instead of dropping
the chunk and continuing, contradicting the claimed non-fatal handling of
result-parse failures. -/
theorem c4_counterexample :
    processingStep cfgFix stActiveFix { inpFix0 with fullFeed := .ok true, fullRes := .exn }
      = .died [Act.feedFull 0, Act.fetchFinal] := by
  decide

/-- C4 (amended): while Active, an AcceptWaveform failure is non-fatal — the
exception is caught, an error event is emitted, the chunk counts as not
accepted, and when the subsequent partial result is empty the state is left
completely unchanged and the loop continues; by contrast an exception while
parsing the Result() payload of an accepted chunk is not caught and
terminates the processing loop. -/
theorem c4_feed_error_nonfatal_parse_error_fatal (cfg : Config) (st : ProcState) (inp : Input)
    (hw : st.waiting = false) (hs : st.sessionActive = true) (hf : st.fullRec = true) :
    (∀ p, inp.fullFeed = .exn → inp.fullPart = .ok p → pyStrip p = [] →
      processingStep cfg st inp =
        .ok st [Act.feedFull inp.chunkId, Act.emit .error, Act.fetchPart]) ∧
    (inp.fullFeed = .ok true → inp.fullRes = .exn →
      processingStep cfg st inp = .died [Act.feedFull inp.chunkId, Act.fetchFinal]) := by
  constructor
  · intro p hfeed hpart hempty
    unfold processingStep
    rw [if_neg (by simp [hw]), if_pos ⟨hs, hf⟩]
    simp only [fullBranch, hfeed, fullAfterFeed, hpart, Bool.false_eq_true, if_false]
    rw [if_pos hempty]
    simp
  · intro hfeed hres
    unfold processingStep
    rw [if_neg (by simp [hw]), if_pos ⟨hs, hf⟩]
    simp only [fullBranch, hfeed, fullAfterFeed, hres, if_true]
    simp

/-- Witness for c4_feed_error_nonfatal_parse_error_fatal at the fixtures. -/
theorem c4_feed_error_witness :
    processingStep cfgFix stActiveFix { inpFix0 with fullFeed := .exn }
      = .ok stActiveFix [Act.feedFull 0, Act.emit .error, Act.fetchPart] ∧
    processingStep cfgFix stActiveFix { inpFix0 with fullFeed := .ok true, fullRes := .exn }
      = .died [Act.feedFull 0, Act.fetchFinal] :=
  ⟨(c4_feed_error_nonfatal_parse_error_fatal cfgFix stActiveFix
      { inpFix0 with fullFeed := .exn } rfl rfl rfl).1 [] rfl rfl (by decide),
   (c4_feed_error_nonfatal_parse_error_fatal cfgFix stActiveFix
      { inpFix0 with fullFeed := .ok true, fullRes := .exn } rfl rfl rfl).2 rfl rfl⟩

theorem length_dropWhile_le_char (p : Char → Bool) (l : Str) :
    (l.dropWhile p).length ≤ l.length :=
  (List.dropWhile_suffix p).length_le

theorem getLast?_append_right {l1 l2 : Str} (h : l2 ≠ []) :
    (l1 ++ l2).getLast? = l2.getLast? := by
  rw [List.getLast?_append]
  cases hg : l2.getLast? with
  | none => exact absurd (List.getLast?_eq_none_iff.1 hg) h
  | some c => rfl

theorem dropWhile_eq_self_of_head {p : Char → Bool} {l : Str}
    (h : ∀ c, l.head? = some c → p c = false) : l.dropWhile p = l := by
  cases l with
  | nil => rfl
  | cons a rest => rw [List.dropWhile_cons, if_neg (by simp [h a rfl])]

theorem head_not_space {l : Str} (h : l.dropWhile isSpaceChar = l) :
    ∀ c, l.head? = some c → isSpaceChar c = false := by
  intro c hc
  cases l with
  | nil => simp at hc
  | cons a rest =>
    have hac : a = c := by simpa using hc
    by_contra hps
    have hps2 : isSpaceChar a = true := by
      rw [hac]
      simpa using hps
    rw [List.dropWhile_cons, if_pos hps2] at h
    have hle := length_dropWhile_le_char isSpaceChar rest
    rw [h] at hle
    simp at hle

theorem pyStrip_length_le (l : Str) :
    (pyStrip l).length ≤ (l.dropWhile isSpaceChar).length := by
  unfold pyStrip
  rw [List.length_reverse]
  exact le_trans (length_dropWhile_le_char _ _) (by rw [List.length_reverse])

theorem dropWhile_eq_self_of_pyStrip_eq {l : Str} (h : pyStrip l = l) :
    l.dropWhile isSpaceChar = l := by
  have hlen : l.length ≤ (l.dropWhile isSpaceChar).length := by
    conv_lhs => rw [← h]
    exact pyStrip_length_le l
  exact (List.dropWhile_suffix isSpaceChar).eq_of_length
    (le_antisymm (List.dropWhile_suffix isSpaceChar).length_le hlen)

theorem reverse_dropWhile_eq_of_pyStrip_eq {l : Str} (h : pyStrip l = l) :
    l.reverse.dropWhile isSpaceChar = l.reverse := by
  have h1 : l.dropWhile isSpaceChar = l := dropWhile_eq_self_of_pyStrip_eq h
  have h2 : (l.reverse.dropWhile isSpaceChar).reverse = l := by
    unfold pyStrip at h
    rw [h1] at h
    exact h
  calc l.reverse.dropWhile isSpaceChar
      = ((l.reverse.dropWhile isSpaceChar).reverse).reverse := by rw [List.reverse_reverse]
    _ = l.reverse := by rw [h2]

theorem pyStrip_eq_self_of_ends {l : Str}
    (h1 : ∀ c, l.head? = some c → isSpaceChar c = false)
    (h2 : ∀ c, l.getLast? = some c → isSpaceChar c = false) :
    pyStrip l = l := by
  have d1 : l.dropWhile isSpaceChar = l := dropWhile_eq_self_of_head h1
  have d2 : l.reverse.dropWhile isSpaceChar = l.reverse := by
    apply dropWhile_eq_self_of_head
    intro c hc
    exact h2 c (by rwa [List.head?_reverse] at hc)
  unfold pyStrip
  rw [d1, d2, List.reverse_reverse]

theorem joinSpace_head? {a : Str} (rest : List Str) (ha : a ≠ []) :
    (joinSpace (a :: rest)).head? = a.head? := by
  cases rest with
  | nil => rfl
  | cons b t =>
    show (a ++ ' ' :: joinSpace (b :: t)).head? = a.head?
    cases a with
    | nil => exact absurd rfl ha
    | cons c cs => rfl

theorem joinSpace_ne_nil {segs : List Str} (hne : segs ≠ []) (hall : ∀ s ∈ segs, s ≠ []) :
    joinSpace segs ≠ [] := by
  cases segs with
  | nil => exact absurd rfl hne
  | cons a rest =>
    cases rest with
    | nil => exact hall a (by simp)
    | cons b t =>
      show a ++ ' ' :: joinSpace (b :: t) ≠ []
      simp

theorem joinSpace_getLast? : ∀ (segs : List Str), segs ≠ [] → (∀ s ∈ segs, s ≠ []) →
    ∃ last ∈ segs, (joinSpace segs).getLast? = last.getLast? := by
  intro segs
  induction segs with
  | nil => simp
  | cons a rest ih =>
    intro _ hall
    cases rest with
    | nil => exact ⟨a, by simp, rfl⟩
    | cons b t =>
      obtain ⟨last, hmem, heq⟩ := ih (by simp) (fun s hs => hall s (by simp [hs]))
      refine ⟨last, by simp [hmem], ?_⟩
      show (a ++ ' ' :: joinSpace (b :: t)).getLast? = _
      rw [show a ++ ' ' :: joinSpace (b :: t) = (a ++ [' ']) ++ joinSpace (b :: t) by simp]
      rw [getLast?_append_right
        (joinSpace_ne_nil (by simp) (fun s hs => hall s (by simp [hs])))]
      exact heq

theorem pyStrip_joinSpace {segs : List Str} (hne : segs ≠ [])
    (hseg : ∀ s ∈ segs, s ≠ [] ∧ pyStrip s = s) :
    pyStrip (joinSpace segs) = joinSpace segs := by
  apply pyStrip_eq_self_of_ends
  · cases segs with
    | nil => exact absurd rfl hne
    | cons a rest =>
      intro c hc
      rw [joinSpace_head? rest (hseg a (by simp)).1] at hc
      exact head_not_space (dropWhile_eq_self_of_pyStrip_eq (hseg a (by simp)).2) c hc
  · obtain ⟨last, hmem, heq⟩ := joinSpace_getLast? segs hne (fun s hs => (hseg s hs).1)
    intro c hc
    rw [heq] at hc
    have hrev : last.reverse.dropWhile isSpaceChar = last.reverse :=
      reverse_dropWhile_eq_of_pyStrip_eq (hseg last hmem).2
    exact head_not_space hrev c (by rwa [List.head?_reverse])

/-- C5: _save_transcript never writes a file for a text that strips to empty
(including whitespace-only texts), and for the space-joined non-empty
finalized segments of a session it writes exactly that joined text followed
by a single newline, to transcripts/transcript_<timestamp>.txt. -/
theorem c5_save_transcript (segs : List Str) (ts : Str) (hne : segs ≠ [])
    (hseg : ∀ s ∈ segs, s ≠ [] ∧ pyStrip s = s) :
    save_transcript (joinSpace segs) ts
      = some (transcriptPath ts, joinSpace segs ++ ['\n']) ∧
    ∀ text, pyStrip text = [] → save_transcript text ts = none := by
  constructor
  · have hstr : pyStrip (joinSpace segs) = joinSpace segs := pyStrip_joinSpace hne hseg
    have hnn : joinSpace segs ≠ [] := joinSpace_ne_nil hne (fun s hs => (hseg s hs).1)
    simp only [save_transcript, hstr]
    rw [if_neg hnn]
  · intro text htext
    simp [save_transcript, htext]

/-- Witness for c5_save_transcript on the spec's end-to-end example segments. -/
theorem c5_save_transcript_witness :
    save_transcript (joinSpace ["at the park".data, "goodbye".data])
        "2025-01-01_00-00-00".data
      = some (transcriptPath "2025-01-01_00-00-00".data,
              joinSpace ["at the park".data, "goodbye".data] ++ ['\n']) ∧
    save_transcript "   ".data "2025-01-01_00-00-00".data = none :=
  ⟨(c5_save_transcript ["at the park".data, "goodbye".data] "2025-01-01_00-00-00".data
      (by decide) (by decide)).1,
   (c5_save_transcript ["at the park".data, "goodbye".data] "2025-01-01_00-00-00".data
      (by decide) (by decide)).2 "   ".data (by decide)⟩

theorem runQueue_le (cap : Nat) : ∀ (ops : List QOp) (q : List Nat), q.length ≤ cap →
    (runQueue cap q ops).length ≤ cap := by
  intro ops
  induction ops with
  | nil =>
    intro q h
    simpa [runQueue] using h
  | cons op rest ih =>
    intro q h
    show (runQueue cap (applyQOp cap q op) rest).length ≤ cap
    apply ih
    cases op with
    | push x =>
      simp only [applyQOp, putNowait]
      split
      · exact h
      · rename_i hlt
        simp only [not_le] at hlt
        simp only [List.length_append, List.length_singleton]
        omega
    | pop =>
      simp only [applyQOp]
      exact le_trans (by simp [List.length_tail]) h

/-- C9: starting from an empty queue, no sequence of capture-callback pushes
and consumer pops ever grows the audio queue beyond its configured capacity
of 500, and a non-blocking push onto a full queue leaves the queue unchanged:
the new frame is dropped rather than buffered or blocked on. -/
theorem c9_queue_bounded (ops : List QOp) :
    (runQueue audioQueueCapacity [] ops).length ≤ audioQueueCapacity ∧
    ∀ (q : List Nat) (x : Nat), audioQueueCapacity ≤ q.length →
      putNowait audioQueueCapacity q x = q := by
  refine ⟨runQueue_le _ ops [] (by simp), ?_⟩
  intro q x h
  simp [putNowait, h]

/-- Witness for c9_queue_bounded: a concrete op sequence, and a drop on a
concrete full queue. -/
theorem c9_queue_bounded_witness :
    (runQueue audioQueueCapacity [] [QOp.push 1, QOp.push 2, QOp.pop]).length
      ≤ audioQueueCapacity ∧
    putNowait audioQueueCapacity (List.replicate 500 0) 7 = List.replicate 500 0 :=
  ⟨(c9_queue_bounded [QOp.push 1, QOp.push 2, QOp.pop]).1,
   (c9_queue_bounded []).2 (List.replicate 500 0) 7
     (by rw [List.length_replicate]; exact le_refl 500)⟩

/-- Witness for c6_debounce: a hot final "hello" arriving exactly at the edge
of the debounce window is ignored. -/
theorem c6_debounce_witness :
    processingStep cfgFix stIdleFix
        { inpFix0 with now := 3, hotFeed := .ok true, hotRes := .ok "hello".data }
      = .ok stIdleFix [Act.feedHot 0, Act.fetchHotFinal] :=
  c6_debounce cfgFix stIdleFix
    { inpFix0 with now := 3, hotFeed := .ok true, hotRes := .ok "hello".data }
    "hello".data rfl rfl rfl rfl rfl (by decide) (by norm_num [cfgFix, stIdleFix])

/-- Witness for c8_vad_gating: a silent chunk is discarded, and a voiced
chunk triggers the ordered wake actions with exactly one wake event. -/
theorem c8_vad_gating_witness :
    (processingStep cfgFix stWaitFix { inpFix0 with rms := 0 } = .ok stWaitFix []) ∧
    ((∃ tail, stepActs cfgFix stWaitFix { inpFix0 with rms := 2 } =
        Act.createFull :: Act.clearBuffer :: Act.disposeHot ::
        Act.emit (.wake "hello".data 5) :: Act.feedFull 0 :: tail) ∧
     (wsProj (stepActs cfgFix stWaitFix { inpFix0 with rms := 2 })).count true = 1) :=
  ⟨(c8_vad_gating cfgFix stWaitFix { inpFix0 with rms := 0 } rfl).1 (by decide),
   (c8_vad_gating cfgFix stWaitFix { inpFix0 with rms := 2 } rfl).2 (by decide) rfl⟩

/-- Witness for c10_wake_word_hardcoded: a wake emitted with configured wake
word "hi" still carries the word 'hello'. -/
theorem c10_wake_word_hardcoded_witness :
    Act.emit (Event.wake "hello".data 5)
      ∈ stepActs { cfgFix with wakeWords := ["hi".data] } stWaitFix
          { inpFix0 with rms := 2 } ∧
    "hello".data = "hello".data :=
  ⟨by decide,
   c10_wake_word_hardcoded { cfgFix with wakeWords := ["hi".data] } stWaitFix
     { inpFix0 with rms := 2 } "hello".data 5 (by decide) (by decide)⟩
